import Mathlib

/-!
Verification development for the virtual-FDW federation engine
(`src/core/fdw_manager.py`).  The Python source is shallowly embedded:
strings are modelled as `List Char` processed by hand-written scanners that
mirror the regular expressions of the source, dictionaries as association
lists in insertion order, Python sets as insertion-ordered duplicate-free
lists (Python set iteration order is unspecified; insertion order is the
deterministic model used here, and it is stated explicitly wherever a claim
depends on it), and exceptions as `Except`.
-/

deriving instance DecidableEq for Except

namespace FDW

/-! ## Character and string utilities -/

/-- Python whitespace characters recognised by `\s` over ASCII input. -/
def isSpaceC (c : Char) : Bool :=
  match c with
  | ' ' | '\t' | '\n' | '\r' | '\x0b' | '\x0c' => true
  | _ => false

/-- Python word characters `\w` over ASCII input: letters, digits, underscore. -/
def isWordC (c : Char) : Bool :=
  c.isAlphanum || c == '_'

/-- Lower-casing a character list (Python `str.lower` over ASCII input). -/
def lowerS (l : List Char) : List Char := l.map Char.toLower

/-- Collapse every whitespace run to one space: `re.sub(r"\s+", " ", query)`
(`fdw_manager.py` line 609).  The flag records whether the previous
character was whitespace. -/
def collapseWS : Bool → List Char → List Char
  | _, [] => []
  | prev, c :: rest =>
    if isSpaceC c then
      if prev then collapseWS true rest else ' ' :: collapseWS true rest
    else c :: collapseWS false rest

/-- Strip characters satisfying `p` from both ends. -/
def stripChars (p : Char → Bool) (l : List Char) : List Char :=
  ((l.dropWhile p).reverse.dropWhile p).reverse

/-- Python `str.strip()`. -/
def stripWS (l : List Char) : List Char := stripChars isSpaceC l

/-- `re.sub(r"\s+", " ", query).strip()` (`parse_sql`, line 609). -/
def normalizeQuery (q : String) : List Char :=
  stripWS (collapseWS false q.data)

/-- Whether `needle` occurs literally at the head of the list. -/
def leadsWith : List Char → List Char → Bool
  | [], _ => true
  | _ :: _, [] => false
  | a :: l1, b :: l2 => a == b && leadsWith l1 l2

/-- Case-insensitive variant of `leadsWith`. -/
def leadsWithCI : List Char → List Char → Bool
  | [], _ => true
  | _ :: _, [] => false
  | a :: l1, b :: l2 => a.toLower == b.toLower && leadsWith (lowerS l1) (lowerS l2)

/-- Scan for the first occurrence of `needle`, reporting its index. -/
def findAux (needle : List Char) : List Char → Nat → Option Nat
  | [], i => if leadsWith needle [] then some i else none
  | c :: t, i =>
    if leadsWith needle (c :: t) then some i else findAux needle t (i + 1)

/-- Python `str.find(needle, start)`, returning `none` for `-1`. -/
def findSub (hay needle : List Char) (start : Nat) : Option Nat :=
  if hay.length < start then none else findAux needle (hay.drop start) start

/-- Python `needle in hay` substring test. -/
def containsS (hay needle : String) : Bool :=
  (findSub hay.data needle.data 0).isSome

/-- Python `str.strip()` producing a `String`. -/
def stripS (s : String) : String := String.mk (stripWS s.data)

/-- Quote characters removed by `alias.strip("\x22\x27")`. -/
def isQuoteC (c : Char) : Bool := c == '"' || c == '\x27'

/-- Python `str.strip("\x22\x27")`. -/
def stripQuotes (l : List Char) : List Char := stripChars isQuoteC l

/-- Greedy `\w+`: the maximal word-character run and the rest. -/
def takeWord (l : List Char) : List Char × List Char :=
  (l.takeWhile isWordC, l.dropWhile isWordC)

/-- Python `str.split()` (split on whitespace runs, dropping empties). -/
def splitWSAux : List Char → List Char → List (List Char)
  | [], cur => if cur.isEmpty then [] else [cur.reverse]
  | c :: rest, cur =>
    if isSpaceC c then
      if cur.isEmpty then splitWSAux rest []
      else cur.reverse :: splitWSAux rest []
    else splitWSAux rest (c :: cur)

/-- Python `str.split()`. -/
def splitWS (l : List Char) : List (List Char) := splitWSAux l []

/-- Python `set.add` modelled on an insertion-ordered duplicate-free list. -/
def addSet (l : List String) (x : String) : List String :=
  if l.contains x then l else l ++ [x]

/-- Python `dict[k] = v`: update in place, append when absent. -/
def dictSet {β : Type} (l : List (String × β)) (k : String) (v : β) :
    List (String × β) :=
  match l with
  | [] => [(k, v)]
  | (k0, v0) :: rest =>
    if k0 == k then (k, v) :: rest else (k0, v0) :: dictSet rest k v

/-! ## Parser data model (`parse_sql`, lines 597-723) -/

/-- One explicit `JOIN ... ON` clause recorded by the parser. -/
structure JoinClause where
  table : String
  aliasName : Option String
  condition : String
deriving Repr, DecidableEq

/-- The parse result dictionary of `parse_sql`. -/
structure ParsedQuery where
  columns : List String
  tables : List String
  aliases : List (String × String)
  whereClause : String
  select_all : Bool
  joins : List JoinClause
deriving Repr, DecidableEq

/-- Column splitter `_split_columns` (lines 725-750): split on commas outside
quotes and parentheses; every other character is appended to the current
token exactly as in the Python loop. -/
def splitColumnsAux : List Char → List Char → Bool → Nat → List String
  | [], current, _, _ =>
    if current.isEmpty then [] else [String.mk (stripWS current.reverse)]
  | c :: rest, current, inQ, inP =>
    if c == '\x27' || c == '"' then
      splitColumnsAux rest (c :: current) (!inQ) inP
    else if c == '(' && !inQ then
      splitColumnsAux rest (c :: current) inQ (inP + 1)
    else if c == ')' && !inQ && inP > 0 then
      splitColumnsAux rest (c :: current) inQ (inP - 1)
    else if c == ',' && !inQ && inP == 0 then
      String.mk (stripWS current.reverse) :: splitColumnsAux rest [] inQ inP
    else
      splitColumnsAux rest (c :: current) inQ inP

/-- `_split_columns` entry point. -/
def splitColumns (l : List Char) : List String := splitColumnsAux l [] false 0

/-- Case-insensitive literal keyword match; returns the rest on success. -/
def matchCI : List Char → List Char → Option (List Char)
  | [], l => some l
  | _ :: _, [] => none
  | k :: ks, c :: cs => if c.toLower == k.toLower then matchCI ks cs else none

/-- `\s+`: one or more whitespace characters. -/
def matchSp1 (l : List Char) : Option (List Char) :=
  if (l.takeWhile isSpaceC).isEmpty then none else some (l.dropWhile isSpaceC)

/-- Match a sequence of keywords separated by `\s+`. -/
def matchWords : List (List Char) → List Char → Option (List Char)
  | [], l => some l
  | w :: ws, l =>
    match matchCI w l with
    | none => none
    | some r =>
      match ws with
      | [] => some r
      | _ :: _ =>
        match matchSp1 r with
        | none => none
        | some r2 => matchWords ws r2

/-- Tail of the JOIN regex after the table name:
`(?:\s+AS\s+)?(\w+)?\s+ON\s+([^)]+)`.  On input whose whitespace runs are
single spaces (the scanner only ever runs on normalised text) the regex can
succeed in exactly two ways: with `AS <alias>` present, or with neither
(after a greedy `\w+` table name the optional bare `(\w+)?` can never match,
and `AS` without an alias would need two consecutive whitespace characters).
Returns the optional alias, the `[^)]+` condition, and the rest. -/
def matchJoinTail (l : List Char) : Option (Option (List Char) × List Char × List Char) :=
  (do
    let r1 ← matchSp1 l
    let r2 ← matchCI "AS".data r1
    let r3 ← matchSp1 r2
    let (w, r4) := takeWord r3
    if w.isEmpty then none else
    let r5 ← matchSp1 r4
    let r6 ← matchCI "ON".data r5
    let r7 ← matchSp1 r6
    let cond := r7.takeWhile (fun c => c != ')')
    if cond.isEmpty then none else
    some (some w, cond, r7.drop cond.length)) <|>
  (do
    let r1 ← matchSp1 l
    let r2 ← matchCI "ON".data r1
    let r3 ← matchSp1 r2
    let cond := r3.takeWhile (fun c => c != ')')
    if cond.isEmpty then none else
    some (none, cond, r3.drop cond.length))

/-- Table-name-and-tail part of the JOIN regex:
`(\w+\.\w+|\w+)` followed by `matchJoinTail`, with the regex backtracking
from the dotted alternative to the bare one when the tail fails. -/
def matchJoinBody (l : List Char) :
    Option (List Char × Option (List Char) × List Char × List Char) :=
  let (w1, r1) := takeWord l
  if w1.isEmpty then none
  else
    (match r1 with
     | '.' :: r2 =>
       let (w2, r3) := takeWord r2
       if w2.isEmpty then none
       else
         match matchJoinTail r3 with
         | some (a, c, rest) => some (w1 ++ '.' :: w2, a, c, rest)
         | none => none
     | _ => none) <|>
    (match matchJoinTail r1 with
     | some (a, c, rest) => some (w1, a, c, rest)
     | none => none)

/-- Attempt one keyword alternative of the JOIN regex at this position. -/
def tryJoinKw (kws : List (List Char)) (l : List Char) :
    Option (List Char × Option (List Char) × List Char × List Char) :=
  match matchWords kws l with
  | none => none
  | some r =>
    match matchSp1 r with
    | none => none
    | some r2 => matchJoinBody r2

/-- The full JOIN-clause regex of `parse_sql` (lines 629-632) attempted at
one position, alternatives in the order written in the source. -/
def matchJoinClause (l : List Char) :
    Option (List Char × Option (List Char) × List Char × List Char) :=
  tryJoinKw ["INNER".data, "JOIN".data] l <|>
  tryJoinKw ["LEFT".data, "JOIN".data] l <|>
  tryJoinKw ["RIGHT".data, "JOIN".data] l <|>
  tryJoinKw ["FULL".data, "JOIN".data] l <|>
  tryJoinKw ["CROSS".data, "JOIN".data] l <|>
  tryJoinKw ["JOIN".data] l

/-- `finditer` of the JOIN regex: scan left to right, requiring a word
boundary (`prevW` tracks whether the previous character was a word
character), and continue after each non-overlapping match.  Fuel is the
remaining length; every step consumes at least one character. -/
def scanJoinsAux : Nat → Bool → List Char → List (String × Option String × String)
  | 0, _, _ => []
  | _ + 1, _, [] => []
  | fuel + 1, prevW, c :: rest =>
    if !prevW && isWordC c then
      match matchJoinClause (c :: rest) with
      | some (tbl, al, cond, restAfter) =>
        let pw := match cond.getLast? with
          | some lc => isWordC lc
          | none => false
        (String.mk tbl, al.map String.mk, String.mk cond) ::
          scanJoinsAux fuel pw restAfter
      | none => scanJoinsAux fuel (isWordC c) rest
    else scanJoinsAux fuel (isWordC c) rest

/-- All JOIN-clause matches of the normalised query. -/
def scanJoins (l : List Char) : List (String × Option String × String) :=
  scanJoinsAux l.length false l

/-- WHERE truncation loop (lines 664-668 and 715-719): try the terminators
in the fixed list order `group by`, `order by`, `limit`; the first one found
truncates and the loop breaks. -/
def terminatorCut (wc : List Char) : List Char :=
  let lw := lowerS wc
  match findSub lw "group by".data 0 with
  | some p => stripWS (wc.take p)
  | none =>
    match findSub lw "order by".data 0 with
    | some p => stripWS (wc.take p)
    | none =>
      match findSub lw "limit".data 0 with
      | some p => stripWS (wc.take p)
      | none => wc

/-- Raw WHERE text at a given index: `normalized_query[where_idx+5:].strip()`
followed by `terminatorCut`. -/
def whereRawAt (nq : List Char) (wi : Nat) : List Char :=
  terminatorCut (stripWS (nq.drop (wi + 5)))

/-- Three-part-name rewrite of the first WHERE pass (line 671):
`re.sub(r"(\b\w+\b\.\b\w+\b\.\b\w+\b)", m -> m.replace(".", "_"), wc)`.
Both dots of a matched `a.b.c` become underscores. -/
def rewriteThreePartAux : Nat → Bool → List Char → List Char
  | 0, _, l => l
  | _ + 1, _, [] => []
  | fuel + 1, prevW, c :: rest =>
    if !prevW && isWordC c then
      let (w1, r1) := takeWord (c :: rest)
      match r1 with
      | '.' :: r2 =>
        let (w2, r3) := takeWord r2
        if w2.isEmpty then c :: rewriteThreePartAux fuel true rest
        else
          match r3 with
          | '.' :: r4 =>
            let (w3, r5) := takeWord r4
            if w3.isEmpty then c :: rewriteThreePartAux fuel true rest
            else (w1 ++ '_' :: w2 ++ '_' :: w3) ++ rewriteThreePartAux fuel true r5
          | _ => c :: rewriteThreePartAux fuel true rest
      | _ => c :: rewriteThreePartAux fuel true rest
    else c :: rewriteThreePartAux fuel (isWordC c) rest

/-- Entry point for the three-part rewrite. -/
def rewriteThreePart (l : List Char) : List Char :=
  rewriteThreePartAux l.length false l

/-- String-level three-part rewrite. -/
def rewriteThreePartS (s : String) : String :=
  String.mk (rewriteThreePart s.data)

/-- `re.sub(r"\bon\b.+", "", tables_part, flags=IGNORECASE)` (line 675):
everything from the first word-bounded `on` with at least one following
character to the end of the string is removed. -/
def removeOnAux : Nat → Bool → List Char → List Char
  | 0, _, l => l
  | _ + 1, _, [] => []
  | fuel + 1, prevW, c :: rest =>
    if !prevW && c.toLower == 'o' then
      match rest with
      | c2 :: c3 :: _ =>
        if c2.toLower == 'n' && !isWordC c3 then []
        else c :: removeOnAux fuel (isWordC c) rest
      | _ => c :: removeOnAux fuel (isWordC c) rest
    else c :: removeOnAux fuel (isWordC c) rest

/-- Entry point for the `on`-fragment removal. -/
def removeOn (l : List Char) : List Char := removeOnAux l.length false l

/-- `re.split(r",|\bjoin\b", tables_part, flags=IGNORECASE)` (line 678). -/
def splitTokensAux : Nat → Bool → List Char → List Char → List (List Char)
  | 0, _, acc, l => [acc.reverse ++ l]
  | _ + 1, _, acc, [] => [acc.reverse]
  | fuel + 1, prevW, acc, c :: rest =>
    if c == ',' then
      acc.reverse :: splitTokensAux fuel false [] rest
    else
      let here := c :: rest
      let isJoinKw := !prevW && leadsWithCI "join".data here &&
        (match here.drop 4 with
         | [] => true
         | d :: _ => !isWordC d)
      if isJoinKw then
        acc.reverse :: splitTokensAux fuel true [] (here.drop 4)
      else
        splitTokensAux fuel (isWordC c) (c :: acc) rest

/-- Token split entry point. -/
def splitTokens (l : List Char) : List (List Char) :=
  splitTokensAux l.length false [] l

/-- Join-type keywords ignored as aliases (line 706). -/
def joinTypeKws : List String := ["inner", "outer", "left", "right", "full", "cross"]

/-- Index just past the `FROM` keyword of the normalised query (`from_end`,
line 625); `0` when SELECT or FROM is missing (the parser then fails before
using it). -/
def fromEndIdx (q : String) : Nat :=
  let nq := normalizeQuery q
  let ql := lowerS nq
  match findSub ql "select".data 0 with
  | none => 0
  | some si =>
    match findSub ql "from".data si with
    | none => 0
    | some fi => fi + 4

/-- The second WHERE extraction (lines 710-721), the one whose value the
returned dictionary actually keeps.  No three-part rewrite is applied. -/
def whereSecondPass (nq : List Char) (fromEnd : Nat) : String :=
  match findSub (lowerS nq) "where".data fromEnd with
  | none => ""
  | some wi => String.mk (whereRawAt nq wi)

/-- The first WHERE extraction (lines 655-672), which applies the three-part
rewrite; its value is assigned to `parsed["where"]` and then overwritten by
the second extraction. -/
def whereFirstPass (nq : List Char) (fromEnd : Nat) : String :=
  match findSub (lowerS nq) "where".data fromEnd with
  | none => ""
  | some wi => String.mk (rewriteThreePart (whereRawAt nq wi))

/-- String-level first WHERE pass of a query. -/
def whereFirstPassS (q : String) : String :=
  whereFirstPass (normalizeQuery q) (fromEndIdx q)

/-- Fold one FROM-list token (lines 680-707) into the table list and alias
dictionary. -/
def foldToken (st : List String × List (String × String)) (tok : List Char) :
    List String × List (String × String) :=
  let (tabs, als) := st
  let parts := splitWS (stripWS tok)
  match parts with
  | [] => (tabs, als)
  | tname :: rest =>
    let tabs2 := addSet tabs (String.mk tname)
    let aliasTok : Option (List Char) :=
      match rest with
      | [] => none
      | p1 :: rest2 =>
        if lowerS p1 == "as".data then
          match rest2 with
          | p2 :: _ => some p2
          | [] => some p1
        else some p1
    match aliasTok with
    | none => (tabs2, als)
    | some a =>
      let a2 := stripQuotes a
      if joinTypeKws.contains (String.mk (lowerS a2)) then (tabs2, als)
      else (tabs2, dictSet als (String.mk a2) (String.mk tname))

/-- `parse_sql` (lines 597-723).  `tables` is the insertion-ordered model of
the Python set: JOIN-clause tables are added first (lines 634-641), then the
FROM-list tokens (lines 680-691).  The `where` field is the value of the
second extraction, which overwrites the rewritten first pass. -/
def parse_sql (query : String) : Except String ParsedQuery :=
  let nq := normalizeQuery query
  let ql := lowerS nq
  match findSub ql "select".data 0 with
  | none => Except.error "missing SELECT or FROM"
  | some selectIdx =>
    match findSub ql "from".data selectIdx with
    | none => Except.error "missing SELECT or FROM"
    | some fromIdx =>
      let columnsPart := stripWS ((nq.drop (selectIdx + 6)).take (fromIdx - (selectIdx + 6)))
      let cols := splitColumns columnsPart
      let selectAll := cols.any (fun c => containsS c "*")
      let fromEnd := fromIdx + 4
      let fromPart := nq.drop fromEnd
      let jms := scanJoins nq
      let joins1 := jms.map (fun j => JoinClause.mk j.1 j.2.1 (stripS j.2.2))
      let tabs1 := jms.foldl (fun t j => addSet t j.1) []
      let als1 := jms.foldl (fun a j =>
        match j.2.1 with
        | some al => dictSet a al j.1
        | none => a) []
      let tablesPart := removeOn fromPart
      let toks := splitTokens tablesPart
      let (tabs2, als2) := toks.foldl foldToken (tabs1, als1)
      let whereFinal := whereSecondPass nq fromEnd
      Except.ok
        { columns := cols, tables := tabs2, aliases := als2,
          whereClause := whereFinal, select_all := selectAll, joins := joins1 }

/-! ## Table resolver (`_resolve_table_mappings`, lines 267-307) -/

/-- Python `str.split(sep)` for a single-character separator, keeping empty
fragments. -/
def splitOnCharAux (sep : Char) : List Char → List Char → List (List Char)
  | [], cur => [cur.reverse]
  | c :: rest, cur =>
    if c == sep then cur.reverse :: splitOnCharAux sep rest []
    else splitOnCharAux sep rest (c :: cur)

/-- Python `str.split(sep)` for a multi-character separator: leftmost,
non-overlapping, keeping empty fragments. -/
def splitOnStrAux (sep : List Char) : Nat → List Char → List Char → List (List Char)
  | 0, l, cur => [cur.reverse ++ l]
  | _ + 1, [], cur => [cur.reverse]
  | fuel + 1, c :: rest, cur =>
    if leadsWith sep (c :: rest) then
      cur.reverse :: splitOnStrAux sep fuel ((c :: rest).drop sep.length) []
    else splitOnStrAux sep fuel rest (c :: cur)

/-- Python `s.split(sep)` at string level. -/
def splitOnS (s sep : String) : List String :=
  (splitOnStrAux sep.data s.data.length s.data []).map String.mk

/-- Python `sep.join(parts)`. -/
def joinSep (sep : String) : List String → String
  | [] => ""
  | [x] => x
  | x :: y :: rest => x ++ sep ++ joinSep sep (y :: rest)

/-- Last dot segment of an identifier: `full_table.split(".")[-1]`. -/
def lastSeg (s : String) : String :=
  String.mk ((splitOnCharAux '.' s.data []).getLastD s.data)

/-- Resolution failures (`ValueError` at lines 281 and 283; the ambiguous
message joins all candidate names, modelled by carrying the list). -/
inductive ResolveErr where
  | ambiguous (table : String) (candidates : List String)
  | unknown (table : String)
deriving Repr, DecidableEq

/-- Keys of the persisted table mapping (a Python dict, insertion order). -/
def mapKeys (m : List (String × String)) : List String := m.map Prod.fst

/-- Resolution of one table identifier (lines 271-283): verbatim hit, else
candidates by unqualified name; one candidate substitutes, several are
ambiguous, none is unknown. -/
def resolve_table (m : List (String × String)) (fullTable : String) :
    Except ResolveErr String :=
  if fullTable ∈ mapKeys m then Except.ok fullTable
  else
    let cands := (mapKeys m).filter (fun t => decide (lastSeg t = lastSeg fullTable))
    if cands.length = 1 then Except.ok (cands.headD fullTable)
    else if 1 < cands.length then Except.error (ResolveErr.ambiguous fullTable cands)
    else Except.error (ResolveErr.unknown fullTable)

/-! ## Join rules and placement (`_check_db_join_possible`, `_fetch_data`) -/

/-- A persisted join rule (`join_config` entries, lines 132-137). -/
structure JoinRule where
  tables : List String
  key : String
  join_type : String
  execute_in_db : Bool
deriving Repr, DecidableEq

/-- `_check_db_join_possible` (lines 335-345): a singleton group is never a
pushdown; otherwise pushdown iff some rule has `execute_in_db` and the
group's tables are a subset of the rule's tables
(`set(tables).issubset(set(rule["tables"]))`). -/
def check_db_join_possible (tables : List String) (joinRules : List JoinRule) : Bool :=
  if tables.length = 1 then false
  else joinRules.any (fun rule =>
    tables.all (fun t => decide (t ∈ rule.tables)) && rule.execute_in_db)

/-- Per-backend execution strategy chosen by `_fetch_data` (lines 322-331). -/
inductive FetchMode where
  | pushdown
  | clientJoin
deriving Repr, DecidableEq

/-- The choice made by `_fetch_data` for one backend group: `_execute_db_join`
when `_check_db_join_possible` holds, else `_execute_client_join`. -/
def fetch_mode (tablesInConn : List String) (joinRules : List JoinRule) : FetchMode :=
  if check_db_join_possible tablesInConn joinRules then FetchMode.pushdown
  else FetchMode.clientJoin

/-- `_get_applicable_join_rules` (lines 752-762): rules all of whose tables
occur among the query's resolved tables. -/
def get_applicable_join_rules (resolvedTables : List String) (cfg : List JoinRule) :
    List JoinRule :=
  cfg.filter (fun rule => rule.tables.all (fun t => decide (t ∈ resolvedTables)))

/-! ## Pushdown-predicate extraction (`_extract_table_where`, lines 764-782) -/

/-- `_extract_table_where`: split the WHERE text on the literal `" AND "`,
keep the stripped nonempty fragments that mention `alias.` or that contain
no dot but do contain an equals sign, and re-join with `" AND "`. -/
def extract_table_where (whereClause : String) (tableAlias : String) : String :=
  if whereClause = "" then ""
  else
    let conds := (splitOnS whereClause " AND ").filterMap (fun tok =>
      let t := stripS tok
      if t = "" then none
      else if containsS t (tableAlias ++ ".") ||
              (!containsS t "." && containsS t "=") then some t
      else none)
    joinSep " AND " conds

/-- Modelled from the amended claim's words: split on the literal substring
`" AND "` (case-sensitive, irrespective of quoting or nesting); a stripped
nonempty fragment is attributed to the table iff it contains `"<alias>."`,
or it contains no `"."` and contains `"="`. -/
def extract_table_where_spec (whereClause : String) (tableAlias : String) : String :=
  joinSep " AND "
    (((splitOnS whereClause " AND ").map stripS).filter (fun t =>
      t ≠ "" ∧ (containsS t (tableAlias ++ ".") = true ∨
        (containsS t "." = false ∧ containsS t "=" = true))))

/-! ## Cross-backend merger (`_merge_results`, lines 504-573)

The per-table merge body (lines 518-571: explicit join keys, then registry
rules, then positional concatenation) is abstracted as `mergeStep`, because
the claims about `_merge_results` concern only the single-result shortcut
and the iteration order/accumulator structure. -/

/-- `_merge_results`: one result set is returned unchanged; otherwise the
tables of the parsed set that have a fetched frame are processed in the
set's iteration order, the first as the accumulator.  `none` models the
`IndexError`/`StopIteration` the Python code would raise on an empty input. -/
def merge_results {α : Type} (mergeStep : α → String → α)
    (parsedTables : List String) (dfs : List (String × α)) : Option α :=
  if dfs.length = 1 then (dfs.head?).map Prod.snd
  else
    let tablesOrdered := parsedTables.filter (fun t => (dfs.lookup t).isSome)
    match tablesOrdered with
    | [] => none
    | t0 :: rest =>
      match dfs.lookup t0 with
      | none => none
      | some a0 =>
        some (rest.foldl (fun acc t =>
          if (dfs.lookup t).isSome then mergeStep acc t else acc) a0)

/-! ## DataFrame model and post-merge filter
(`_apply_global_where`, `_prepare_where_condition`, `_apply_where_manually`) -/

/-- A result frame: column names and rows of cells; a `none` cell is a
missing value (pandas `NaN`). -/
structure DataFrame where
  columns : List String
  rows : List (List (Option String))
deriving Repr, DecidableEq

/-- Cell access `df[col]` for one row: `none` when the column is absent
(pandas raises `KeyError` there). -/
def colVal (df : DataFrame) (row : List (Option String)) (c : String) :
    Option (Option String) :=
  match df.columns.findIdx? (fun x => x == c) with
  | none => none
  | some i => some (row.getD i none)

/-- `astype(str)` of one cell: a missing value prints as `"nan"`. -/
def cellStr : Option String → String
  | none => "nan"
  | some s => s

/-- Literal global replace, Python `str.replace` (non-overlapping, left to
right, continuing after each replacement). -/
def replaceAllAux (needle repl : List Char) : Nat → List Char → List Char
  | 0, l => l
  | _ + 1, [] => []
  | fuel + 1, c :: rest =>
    if !needle.isEmpty && leadsWith needle (c :: rest) then
      repl ++ replaceAllAux needle repl fuel ((c :: rest).drop needle.length)
    else c :: replaceAllAux needle repl fuel rest

/-- String-level literal replace. -/
def replaceAllS (s needle repl : String) : String :=
  String.mk (replaceAllAux needle.data repl.data s.data.length s.data)

/-- `re.sub(rf"(?<!\w){re.escape(original)}(?!\w)", new, s)` (lines 845-849):
replace literal occurrences of `needle` that are not adjacent to word
characters.  Scanning continues on the original text after each match. -/
def replaceBoundedAux (needle repl : List Char) : Nat → Bool → List Char → List Char
  | 0, _, l => l
  | _ + 1, _, [] => []
  | fuel + 1, prevW, c :: rest =>
    let here := c :: rest
    let boundaryAfter :=
      match here.drop needle.length with
      | [] => true
      | d :: _ => !isWordC d
    if !needle.isEmpty && !prevW && leadsWith needle here && boundaryAfter then
      repl ++ replaceBoundedAux needle repl fuel (isWordC (needle.getLastD c))
        (here.drop needle.length)
    else c :: replaceBoundedAux needle repl fuel (isWordC c) rest

/-- String-level bounded replace. -/
def replaceBoundedS (s needle repl : String) : String :=
  String.mk (replaceBoundedAux needle.data repl.data s.data.length false s.data)

/-- `re.sub(r"\b\w+\.(\w+)\b", r"\1", s)` (lines 852 and 869): drop one
qualifier from each word-dot-word occurrence. -/
def stripQualAux : Nat → Bool → List Char → List Char
  | 0, _, l => l
  | _ + 1, _, [] => []
  | fuel + 1, prevW, c :: rest =>
    if !prevW && isWordC c then
      let (_, r1) := takeWord (c :: rest)
      match r1 with
      | '.' :: r2 =>
        let (w2, r3) := takeWord r2
        if w2.isEmpty then c :: stripQualAux fuel true rest
        else w2 ++ stripQualAux fuel true r3
      | _ => c :: stripQualAux fuel true rest
    else c :: stripQualAux fuel (isWordC c) rest

/-- String-level qualifier strip. -/
def stripQualS (s : String) : String :=
  String.mk (stripQualAux s.data.length false s.data)

/-- Column-name mapping of `_prepare_where_condition` (lines 836-841): for
every dotted column, map the full name and the bare name to the full name. -/
def column_mapping (cols : List String) : List (String × String) :=
  cols.foldl (fun m col =>
    if containsS col "." then dictSet (dictSet m col col) (lastSeg col) col
    else m) []

/-- Stable insertion (after all entries of length at least the new key's)
used to model `sorted(items, key=lambda x: -len(x[0]))`. -/
def insertDesc (x : String × String) : List (String × String) → List (String × String)
  | [] => [x]
  | y :: rest =>
    if y.1.length < x.1.length then x :: y :: rest else y :: insertDesc x rest

/-- `_prepare_where_condition` (lines 833-864): boundary-aware column-name
replacement longest-first, qualifier strip, then the literal operator
translations in source order. -/
def prepare_where_condition (whereClause : String) (availableColumns : List String) :
    String :=
  let cm := column_mapping availableColumns
  let sortedCM := cm.foldl (fun acc x => insertDesc x acc) []
  let w1 := sortedCM.foldl (fun w kv => replaceBoundedS w kv.1 kv.2) whereClause
  let w2 := stripQualS w1
  let w3 := replaceAllS w2 "=" "=="
  let w4 := replaceAllS w3 "<>" "!="
  let w5 := replaceAllS w4 "IS NULL" ".isna()"
  let w6 := replaceAllS w5 "IS NOT NULL" ".notna()"
  replaceAllS w6 "\x27" "\x22"

/-- Python `str.split(sep, 1)` restricted to the guarded call sites. -/
def splitFirst (s : String) (sep : String) : String × String :=
  match findSub s.data sep.data 0 with
  | none => (s, "")
  | some i =>
    (String.mk (s.data.take i), String.mk (s.data.drop (i + sep.data.length)))

/-- One fragment of the manual fallback evaluator (lines 874-894) applied to
one row: equality, inequality and null tests are understood; a missing
column (Python `KeyError`, caught and logged) and any fragment matching none
of the four patterns leave the mask unchanged (`true`). -/
def evalCondRow (df : DataFrame) (row : List (Option String)) (cond : String) : Bool :=
  if containsS cond "==" then
    let p := splitFirst cond "=="
    let col := stripS p.1
    let v := String.mk (stripQuotes (stripWS p.2.data))
    match colVal df row col with
    | none => true
    | some cell => cellStr cell == v
  else if containsS cond "!=" then
    let p := splitFirst cond "!="
    let col := stripS p.1
    let v := String.mk (stripQuotes (stripWS p.2.data))
    match colVal df row col with
    | none => true
    | some cell => cellStr cell != v
  else if containsS cond ".isna()" then
    let col := stripS (replaceAllS cond ".isna()" "")
    match colVal df row col with
    | none => true
    | some cell => cell.isNone
  else if containsS cond ".notna()" then
    let col := stripS (replaceAllS cond ".notna()" "")
    match colVal df row col with
    | none => true
    | some cell => cell.isSome
  else true

/-- `_apply_where_manually` (lines 866-896): strip qualifiers, split on the
literal `" AND "`, and keep the rows on which every understood fragment
holds. -/
def apply_where_manually (df : DataFrame) (whereCondition : String) : DataFrame :=
  let wc := stripQualS whereCondition
  let conds := (splitOnS wc " AND ").map stripS
  { columns := df.columns,
    rows := df.rows.filter (fun row => conds.all (fun c => evalCondRow df row c)) }

/-- `_apply_global_where` (lines 575-584).  The primary pandas expression
engine (`df.query(..., engine="python")`) is an external collaborator,
passed in as `queryEngine`; `none` models a raised evaluation error, on
which the manual fallback runs. -/
def apply_global_where (queryEngine : DataFrame → String → Option DataFrame)
    (df : DataFrame) (whereClause : String) : DataFrame :=
  let gw := prepare_where_condition whereClause df.columns
  match queryEngine df gw with
  | some r => r
  | none => apply_where_manually df gw

/-! ## Connection bookkeeping (`get_connection`, `_close_connections`) -/

/-- Observable connection events of one query. -/
inductive ConnEvent where
  | connectEv (key : String) (id : Nat)
  | closeEv (id : Nat)
deriving Repr, DecidableEq

/-- The manager's connection state: `self.connections` (a dict keyed by
backend name), a source of fresh driver connections, and the event trace. -/
structure ConnState where
  connections : List (String × Nat)
  nextId : Nat
  trace : List ConnEvent
deriving Repr, DecidableEq

/-- `get_connection` (lines 150-173) on a successful connect:
`psycopg2.connect` creates a fresh connection and
`self.connections[key] = conn` overwrites any earlier entry for `key`. -/
def get_connection_model (st : ConnState) (key : String) : ConnState :=
  { connections := dictSet st.connections key st.nextId,
    nextId := st.nextId + 1,
    trace := st.trace ++ [ConnEvent.connectEv key st.nextId] }

/-- `_close_connections` (lines 586-595): close every connection still
recorded in the dict, then clear it.  Connections overwritten in the dict
are not reachable here and are never closed. -/
def close_connections_model (st : ConnState) : ConnState :=
  { connections := [],
    nextId := st.nextId,
    trace := st.trace ++ st.connections.map (fun kv => ConnEvent.closeEv kv.2) }

/-- Number of `connect()` calls in a trace. -/
def connectCount (tr : List ConnEvent) : Nat :=
  (tr.filter (fun e =>
    match e with
    | ConnEvent.connectEv _ _ => true
    | ConnEvent.closeEv _ => false)).length

/-- Number of `close()` calls in a trace. -/
def closeCount (tr : List ConnEvent) : Nat :=
  (tr.filter (fun e =>
    match e with
    | ConnEvent.connectEv _ _ => false
    | ConnEvent.closeEv _ => true)).length

/-- The per-table `self.get_connection(info["connection"])` calls performed
by `_execute_client_join` (line 489) for one backend group. -/
def client_join_fetches (st : ConnState) (connName : String)
    (tablesInConn : List String) : ConnState :=
  tablesInConn.foldl (fun s _ => get_connection_model s connName) st

/-! ## Error wrapping in `execute_query` (lines 175-265) -/

/-- Two-decimal rendering of the elapsed time, modelled at centisecond
precision (`f"{exec_time:.2f}"`). -/
def fmtCentis (t : Nat) : String :=
  Nat.repr (t / 100) ++ "." ++
    (if t % 100 < 10 then "0" ++ Nat.repr (t % 100) else Nat.repr (t % 100))

/-- The wrapped message of the `except` block at lines 259-263:
`f"{str(e)} (Время выполнения: {exec_time:.2f} сек.)"`. -/
def wrap_error_msg (cause : String) (elapsedCentis : Nat) : String :=
  cause ++ " (Время выполнения: " ++ fmtCentis elapsedCentis ++ " сек.)"

/-- The staged body of the `try` block of `execute_query` (lines 226-257):
parse, then fetch (covering resolution, grouping and the per-backend
statements), then merge, then the post-merge filter.  Each stage may raise,
modelled by `Except`. -/
structure QueryStages (P D M : Type) where
  parseStage : Except String P
  fetchStage : P → Except String D
  mergeStage : D → Except String M
  filterStage : M → Except String M

/-- Sequencing of the stages inside the `try` block. -/
def run_pipeline {P D M : Type} (s : QueryStages P D M) : Except String M := do
  let p ← s.parseStage
  let d ← s.fetchStage p
  let m ← s.mergeStage d
  s.filterStage m

/-- `execute_query`'s outcome: a successful pipeline returns its frame, any
raised stage error is wrapped once with the elapsed time and re-raised
(lines 259-263). -/
def execute_query_model {P D M : Type} (s : QueryStages P D M)
    (elapsedCentis : Nat) : Except String M :=
  match run_pipeline s with
  | Except.ok m => Except.ok m
  | Except.error e => Except.error (wrap_error_msg e elapsedCentis)

/-! ## Administrative join-rule operations (lines 122-148) -/

/-- `add_join_rule` (lines 122-139): at least two tables, all mapped; the
appended rule is created with `execute_in_db = False`. -/
def add_join_rule (mappingKeys : List String) (cfg : List JoinRule)
    (tables : List String) (key : String) (joinType : String) :
    Except String (List JoinRule) :=
  if tables.length < 2 then Except.error "need at least 2 tables"
  else
    match tables.find? (fun t => !mappingKeys.contains t) with
    | some t => Except.error ("table not in mapping: " ++ t)
    | none =>
      Except.ok (cfg ++
        [{ tables := tables, key := key, join_type := joinType, execute_in_db := false }])

/-- In-place flag update `self.join_config[i]["execute_in_db"] = b`. -/
def setRuleAt : List JoinRule → Nat → Bool → List JoinRule
  | [], _, _ => []
  | r :: rest, 0, b => { r with execute_in_db := b } :: rest
  | r :: rest, n + 1, b => r :: setRuleAt rest n b

/-- `set_join_execution` (lines 141-148): a valid index updates the flag,
any other index raises `IndexError`. -/
def set_join_execution (cfg : List JoinRule) (ruleIndex : Int) (executeInDb : Bool) :
    Except String (List JoinRule) :=
  if 0 ≤ ruleIndex ∧ ruleIndex < (cfg.length : Int) then
    Except.ok (setRuleAt cfg ruleIndex.toNat executeInDb)
  else Except.error "invalid join rule index"

/-! ## Helper lemmas -/

/-- A duplicate-free list whose every element equals `k`, and which contains
`k`, is exactly `[k]`. -/
theorem eq_singleton_of_forall_eq {α : Type} {l : List α} {k : α}
    (hnd : l.Nodup) (hk : k ∈ l) (hall : ∀ x ∈ l, x = k) : l = [k] := by
  cases l with
  | nil => cases hk
  | cons a t =>
    have ha : a = k := hall a (List.mem_cons_self a t)
    subst ha
    cases t with
    | nil => rfl
    | cons b t2 =>
      have hb : b = a := hall b (by simp)
      have hmem : a ∈ b :: t2 := by simp [hb]
      exact absurd hmem (List.nodup_cons.mp hnd).1

/-- Two distinct members force length at least two. -/
theorem one_lt_length_of_two_mem {α : Type} {l : List α} {a b : α}
    (ha : a ∈ l) (hb : b ∈ l) (hab : a ≠ b) : 1 < l.length := by
  cases l with
  | nil => cases ha
  | cons x t =>
    cases t with
    | nil =>
      simp only [List.mem_singleton] at ha hb
      exact absurd (ha.trans hb.symm) hab
    | cons y t2 => simp [List.length]

/-- `leadsWith` holds of any list against itself extended. -/
theorem leadsWith_append (l r : List Char) : leadsWith l (l ++ r) = true := by
  induction l with
  | nil => rfl
  | cons c t ih => simp [leadsWith, ih]

/-- Whether `findAux` finds the needle does not depend on the index. -/
theorem findAux_isSome_idx (needle : List Char) (l : List Char) (i j : Nat) :
    (findAux needle l i).isSome = (findAux needle l j).isSome := by
  induction l generalizing i j with
  | nil => cases h : leadsWith needle [] <;> simp [findAux, h]
  | cons c t ih =>
    by_cases h : leadsWith needle (c :: t) = true
    · simp [findAux, h]
    · simp [findAux, h]
      exact ih (i + 1) (j + 1)

/-- A needle matching at the head is found. -/
theorem findAux_isSome_of_leads (needle hay : List Char) (i : Nat)
    (h : leadsWith needle hay = true) : (findAux needle hay i).isSome = true := by
  cases hay <;> simp [findAux, h]

/-- A needle found in the tail is found in the whole. -/
theorem findAux_isSome_append (needle pre l : List Char) (i : Nat)
    (h : (findAux needle l 0).isSome = true) :
    (findAux needle (pre ++ l) i).isSome = true := by
  induction pre generalizing i with
  | nil => simpa [findAux_isSome_idx needle l i 0] using h
  | cons c t ih =>
    by_cases hl : leadsWith needle (c :: (t ++ l)) = true
    · simp [findAux, hl]
    · simp [findAux, hl]
      exact ih (i + 1)

/-- A string is a substring of itself followed by anything. -/
theorem containsS_append_left (a b : String) : containsS (a ++ b) a = true := by
  unfold containsS findSub
  rw [if_neg (Nat.not_lt_zero _), List.drop_zero, String.data_append]
  exact findAux_isSome_of_leads _ _ _ (leadsWith_append a.data b.data)

/-- A string is a substring of anything followed by it and more. -/
theorem containsS_append_mid (x m y : String) :
    containsS (x ++ (m ++ y)) m = true := by
  unfold containsS findSub
  rw [if_neg (Nat.not_lt_zero _), List.drop_zero, String.data_append,
    String.data_append]
  exact findAux_isSome_append m.data x.data (m.data ++ y.data) 0
    (findAux_isSome_of_leads _ _ _ (leadsWith_append m.data y.data))

/-- `takeWhile isWordC` keeps exactly a word run ending at a non-word
boundary. -/
theorem takeWhile_word_append (w r : List Char)
    (hw : ∀ c ∈ w, isWordC c = true)
    (hr : ∀ c t, r = c :: t → isWordC c = false) :
    (w ++ r).takeWhile isWordC = w := by
  induction w with
  | nil =>
    cases r with
    | nil => simp
    | cons c t => simp [List.takeWhile_cons, hr c t rfl]
  | cons a w2 ih =>
    have ha : isWordC a = true := hw a (List.mem_cons_self a w2)
    simp [List.takeWhile_cons, ha,
      ih (fun c hc => hw c (List.mem_cons_of_mem a hc))]

/-- `dropWhile isWordC` drops exactly a word run ending at a non-word
boundary. -/
theorem dropWhile_word_append (w r : List Char)
    (hw : ∀ c ∈ w, isWordC c = true)
    (hr : ∀ c t, r = c :: t → isWordC c = false) :
    (w ++ r).dropWhile isWordC = r := by
  induction w with
  | nil =>
    cases r with
    | nil => simp
    | cons c t => simp [List.dropWhile_cons, hr c t rfl]
  | cons a w2 ih =>
    have ha : isWordC a = true := hw a (List.mem_cons_self a w2)
    simp [List.dropWhile_cons, ha,
      ih (fun c hc => hw c (List.mem_cons_of_mem a hc))]

/-- `takeWord` splits a word run followed by a non-word boundary. -/
theorem takeWord_append (w r : List Char)
    (hw : ∀ c ∈ w, isWordC c = true)
    (hr : ∀ c t, r = c :: t → isWordC c = false) :
    takeWord (w ++ r) = (w, r) := by
  unfold takeWord
  rw [takeWhile_word_append w r hw hr, dropWhile_word_append w r hw hr]

/-- The rewrite scanner is inert on the empty list. -/
theorem rewriteThreePartAux_nil (fuel : Nat) (pw : Bool) :
    rewriteThreePartAux fuel pw [] = [] := by
  cases fuel <;> rfl

/-! ## Claim C1 -/

/-- A pushdown rule covering three tables; it is applicable to a query that
resolves all three, with the third owned by another backend, so the backend
group below holds only the first two. -/
def c1Rule : JoinRule :=
  { tables := ["db1.a", "db1.b", "db2.c"], key := "k", join_type := "inner",
    execute_in_db := true }

/-- C1, counterexample: the group `[db1.a, db1.b]` is executed as a pushdown
although no applicable rule has its table set contained in the group (the
code tests the subset relation in the opposite direction from the claim). -/
theorem c1_pushdown_counterexample :
    fetch_mode ["db1.a", "db1.b"] [c1Rule] = FetchMode.pushdown ∧
    ¬ ∃ r ∈ [c1Rule], (∀ t ∈ r.tables, t ∈ (["db1.a", "db1.b"] : List String)) ∧
      r.execute_in_db = true := by
  constructor
  · rfl
  · decide

/-- C1, amended: for a nonempty backend group, the executor chooses pushdown
iff the group has more than one table and some applicable rule marked
`execute_in_db` has the GROUP's tables as a subset of the RULE's tables;
and a singleton group is always executed client-side. -/
theorem c1_pushdown_amended (tablesInConn : List String) (rules : List JoinRule)
    (hne : tablesInConn ≠ []) :
    (fetch_mode tablesInConn rules = FetchMode.pushdown ↔
      1 < tablesInConn.length ∧ ∃ r ∈ rules,
        (∀ t ∈ tablesInConn, t ∈ r.tables) ∧ r.execute_in_db = true) ∧
    (∀ t, tablesInConn = [t] →
      fetch_mode tablesInConn rules = FetchMode.clientJoin) := by
  have hfm : fetch_mode tablesInConn rules = FetchMode.pushdown ↔
      check_db_join_possible tablesInConn rules = true := by
    unfold fetch_mode
    by_cases h : check_db_join_possible tablesInConn rules = true <;> simp [h]
  have hchar : check_db_join_possible tablesInConn rules = true ↔
      (tablesInConn.length ≠ 1 ∧ ∃ r ∈ rules,
        (∀ t ∈ tablesInConn, t ∈ r.tables) ∧ r.execute_in_db = true) := by
    unfold check_db_join_possible
    by_cases h1 : tablesInConn.length = 1
    · simp [h1]
    · simp only [if_neg h1]
      simp [List.any_eq_true, List.all_eq_true, Bool.and_eq_true,
        decide_eq_true_iff, h1]
  constructor
  · rw [hfm, hchar]
    have hz : tablesInConn.length ≠ 0 := fun h0 =>
      hne (List.length_eq_zero.mp h0)
    constructor
    · rintro ⟨h1, h2⟩
      exact ⟨by omega, h2⟩
    · rintro ⟨h1, h2⟩
      exact ⟨by omega, h2⟩
  · intro t ht
    subst ht
    simp [fetch_mode, check_db_join_possible]

/-- Witness for C1: the singleton-group clause applied at a concrete group. -/
theorem c1_pushdown_witness :
    fetch_mode ["db1.a"] [c1Rule] = FetchMode.clientJoin :=
  (c1_pushdown_amended ["db1.a"] [c1Rule] (by decide)).2 "db1.a" rfl

/-! ## Claim C2 -/

/-- C2: resolution of one table identifier is a trichotomy: a verbatim key is
used directly; otherwise a unique key with the same unqualified name is
substituted; several such keys fail with the ambiguity error naming exactly
the candidate keys; none fails with the unknown-table error. -/
theorem c2_resolution_trichotomy (m : List (String × String)) (t : String)
    (hnd : (mapKeys m).Nodup) :
    (t ∈ mapKeys m → resolve_table m t = Except.ok t) ∧
    (t ∉ mapKeys m →
      (∀ k, k ∈ mapKeys m → lastSeg k = lastSeg t →
        (∀ k2, k2 ∈ mapKeys m → lastSeg k2 = lastSeg t → k2 = k) →
        resolve_table m t = Except.ok k) ∧
      ((∀ k, k ∈ mapKeys m → lastSeg k ≠ lastSeg t) →
        resolve_table m t = Except.error (ResolveErr.unknown t)) ∧
      (∀ k1 k2, k1 ∈ mapKeys m → k2 ∈ mapKeys m → k1 ≠ k2 →
        lastSeg k1 = lastSeg t → lastSeg k2 = lastSeg t →
        ∃ cs, resolve_table m t = Except.error (ResolveErr.ambiguous t cs) ∧
          k1 ∈ cs ∧ k2 ∈ cs ∧
          ∀ c, c ∈ cs ↔ c ∈ mapKeys m ∧ lastSeg c = lastSeg t)) := by
  refine ⟨fun h => by simp [resolve_table, h], fun hnot => ⟨?_, ?_, ?_⟩⟩
  · intro k hk hseg huniq
    have hfil : (mapKeys m).filter (fun x => decide (lastSeg x = lastSeg t)) = [k] := by
      apply eq_singleton_of_forall_eq (List.Nodup.filter _ hnd)
      · exact List.mem_filter.mpr ⟨hk, by simp [hseg]⟩
      · intro x hx
        obtain ⟨hx1, hx2⟩ := List.mem_filter.mp hx
        exact huniq x hx1 (by simpa using hx2)
    simp [resolve_table, hnot, hfil]
  · intro hno
    have hfil : (mapKeys m).filter (fun x => decide (lastSeg x = lastSeg t)) = [] := by
      rw [List.filter_eq_nil_iff]
      intro x hx
      simp [hno x hx]
    simp [resolve_table, hnot, hfil]
  · intro k1 k2 h1 h2 hne12 h1s h2s
    have hm1 : k1 ∈ (mapKeys m).filter (fun x => decide (lastSeg x = lastSeg t)) :=
      List.mem_filter.mpr ⟨h1, by simp [h1s]⟩
    have hm2 : k2 ∈ (mapKeys m).filter (fun x => decide (lastSeg x = lastSeg t)) :=
      List.mem_filter.mpr ⟨h2, by simp [h2s]⟩
    have hlen : 1 < ((mapKeys m).filter
        (fun x => decide (lastSeg x = lastSeg t))).length :=
      one_lt_length_of_two_mem hm1 hm2 hne12
    refine ⟨(mapKeys m).filter (fun x => decide (lastSeg x = lastSeg t)),
      ?_, hm1, hm2, ?_⟩
    · have hlen1 : ((mapKeys m).filter
          (fun x => decide (lastSeg x = lastSeg t))).length ≠ 1 := by omega
      simp [resolve_table, hnot, hlen, hlen1]
    · intro c
      constructor
      · intro hc
        obtain ⟨hc1, hc2⟩ := List.mem_filter.mp hc
        exact ⟨hc1, by simpa using hc2⟩
      · intro ⟨hc1, hc2⟩
        exact List.mem_filter.mpr ⟨hc1, by simp [hc2]⟩

/-- A mapping with two tables sharing the unqualified name `users`. -/
def c2Map : List (String × String) :=
  [("s1.users", "db1"), ("s2.users", "db2"), ("public.orders", "db1")]

/-- Witness for C2: the ambiguous branch applied at a concrete mapping. -/
theorem c2_resolution_witness :
    ∃ cs, resolve_table c2Map "users" =
        Except.error (ResolveErr.ambiguous "users" cs) ∧
      "s1.users" ∈ cs ∧ "s2.users" ∈ cs ∧
      ∀ c, c ∈ cs ↔ c ∈ mapKeys c2Map ∧ lastSeg c = lastSeg "users" :=
  ((c2_resolution_trichotomy c2Map "users" (by decide)).2 (by decide)).2.2
    "s1.users" "s2.users" (by decide) (by decide) (by decide) (by decide)
    (by decide)

/-! ## Claim C3 -/

/-- Nonempty all-word-character strings (the shape matched by `\b\w+\b`). -/
def isWordStr (s : String) : Prop :=
  s.data ≠ [] ∧ ∀ c ∈ s.data, isWordC c = true

instance (s : String) : Decidable (isWordStr s) := by
  unfold isWordStr
  infer_instance

/-- `String.mk` of a string's own data is the string. -/
theorem stringMk_data (s : String) : String.mk s.data = s := rfl

/-- One full match of the three-part regex consumes the whole input and
replaces both dots. -/
theorem rewriteThreePartAux_full (wa wb wc : List Char) (f : Nat)
    (hwa : ∀ c ∈ wa, isWordC c = true) (hwb : ∀ c ∈ wb, isWordC c = true)
    (hwc : ∀ c ∈ wc, isWordC c = true)
    (ha : wa ≠ []) (hb : wb ≠ []) (hc : wc ≠ []) :
    rewriteThreePartAux (f + 1) false (wa ++ '.' :: (wb ++ '.' :: wc)) =
      wa ++ '_' :: (wb ++ '_' :: wc) := by
  cases wa with
  | nil => exact absurd rfl ha
  | cons a0 arest =>
    cases wb with
    | nil => exact absurd rfl hb
    | cons b0 brest =>
      cases wc with
      | nil => exact absurd rfl hc
      | cons c0 crest =>
        have ha0 : isWordC a0 = true := hwa a0 (List.mem_cons_self _ _)
        have htw1 : takeWord ((a0 :: arest) ++ '.' :: ((b0 :: brest) ++ '.' :: (c0 :: crest))) =
            (a0 :: arest, '.' :: ((b0 :: brest) ++ '.' :: (c0 :: crest))) :=
          takeWord_append _ _ hwa (by intro c t h; cases h; decide)
        have htw2 : takeWord ((b0 :: brest) ++ '.' :: (c0 :: crest)) =
            (b0 :: brest, '.' :: (c0 :: crest)) :=
          takeWord_append _ _ hwb (by intro c t h; cases h; decide)
        have htw3 : takeWord ((c0 :: crest) ++ ([] : List Char)) =
            (c0 :: crest, []) :=
          takeWord_append _ _ hwc (by intro c t h; cases h)
        rw [List.append_nil] at htw3
        simp only [List.cons_append] at htw1 htw2 htw3
        show rewriteThreePartAux (f + 1) false
            (a0 :: (arest ++ '.' :: ((b0 :: brest) ++ '.' :: (c0 :: crest)))) = _
        rw [rewriteThreePartAux]
        simp [ha0, htw1, htw2, htw3, rewriteThreePartAux_nil]

/-- C3, amended: the first WHERE pass rewrites a three-part qualified name
`a.b.c` to `a_b_c` (every dot replaced, not `a.b_c`), and even this rewrite
is not what the parse result stores: the returned `where` field always
equals the second, unrewritten WHERE extraction, which overwrites the first
pass. -/
theorem c3_where_rewrite_amended :
    (∀ a b c : String, isWordStr a → isWordStr b → isWordStr c →
      rewriteThreePartS (a ++ "." ++ b ++ "." ++ c) =
        a ++ "_" ++ b ++ "_" ++ c) ∧
    (∀ q p, parse_sql q = Except.ok p →
      p.whereClause = whereSecondPass (normalizeQuery q) (fromEndIdx q)) := by
  constructor
  · intro a b c ha hb hc
    unfold rewriteThreePartS rewriteThreePart
    have hdata : (a ++ "." ++ b ++ "." ++ c).data =
        a.data ++ '.' :: (b.data ++ '.' :: c.data) := by
      simp [String.data_append]
    rw [hdata]
    conv_rhs => rw [← stringMk_data (a ++ "_" ++ b ++ "_" ++ c)]
    have hdata2 : (a ++ "_" ++ b ++ "_" ++ c).data =
        a.data ++ '_' :: (b.data ++ '_' :: c.data) := by
      simp [String.data_append]
    rw [hdata2]
    apply congrArg String.mk
    obtain ⟨ha1, ha2⟩ := ha
    obtain ⟨hb1, hb2⟩ := hb
    obtain ⟨hc1, hc2⟩ := hc
    cases hA : a.data with
    | nil => exact absurd hA ha1
    | cons a0 arest =>
      rw [hA] at ha2
      show rewriteThreePartAux ((arest ++ '.' :: (b.data ++ '.' :: c.data)).length + 1)
        false ((a0 :: arest) ++ '.' :: (b.data ++ '.' :: c.data)) = _
      exact rewriteThreePartAux_full (a0 :: arest) b.data c.data _ ha2 hb2 hc2
        (by simp) hb1 hc1
  · intro q p h
    simp only [parse_sql] at h
    split at h
    next hs => exact absurd h (by simp)
    next si hs =>
      split at h
      next hf => exact absurd h (by simp)
      next fi hf =>
        injection h with h2
        subst h2
        simp [fromEndIdx, hs, hf]

/-- The concrete query of the C3 counterexample. -/
def c3Query : String := "SELECT x FROM t WHERE a.b.c = 1"

/-- C3, counterexample: for `WHERE a.b.c = 1` the stored `where` field is the
original `a.b.c = 1`; it does not contain the claimed rewritten form
`a.b_c`, and even the discarded first-pass rewrite produces `a_b_c = 1`,
not `a.b_c = 1`. -/
theorem c3_where_rewrite_counterexample :
    (parse_sql c3Query).map ParsedQuery.whereClause = Except.ok "a.b.c = 1" ∧
    containsS "a.b.c = 1" "a.b_c" = false ∧
    whereFirstPassS c3Query = "a_b_c = 1" ∧
    ("a_b_c = 1" : String) ≠ "a.b_c = 1" := by
  refine ⟨by decide, by decide, by decide, by decide⟩

/-- The parse result of the C3 counterexample query (note the quirk that the
FROM-token pass reads `WHERE` as an alias, faithfully to the source). -/
def c3Parsed : ParsedQuery :=
  { columns := ["x"], tables := ["t"], aliases := [("WHERE", "t")],
    whereClause := "a.b.c = 1", select_all := false, joins := [] }

/-- Witness for C3: both amended clauses applied at concrete inputs. -/
theorem c3_where_rewrite_witness :
    rewriteThreePartS ("a" ++ "." ++ "b" ++ "." ++ "c") =
      "a" ++ "_" ++ "b" ++ "_" ++ "c" ∧
    c3Parsed.whereClause = whereSecondPass (normalizeQuery c3Query) (fromEndIdx c3Query) :=
  ⟨c3_where_rewrite_amended.1 "a" "b" "c" (by decide) (by decide) (by decide),
   c3_where_rewrite_amended.2 c3Query c3Parsed (by decide)⟩

/-! ## Claim C4 -/

/-- C4, amended: a single result set is returned unchanged; otherwise the
tables are processed in the iteration order of the parser's table set (in
this embedding, insertion order, which records JOIN-clause tables before
FROM-list tables — not the FROM declaration order), the first such table's
frame being the accumulator into which each subsequent table is merged. -/
theorem c4_merge_order_amended {α : Type} (f : α → String → α) (pt : List String)
    (dfs : List (String × α)) :
    (∀ k a, dfs = [(k, a)] → merge_results f pt dfs = some a) ∧
    (dfs.length ≠ 1 → ∀ t0 rest,
      pt.filter (fun t => (dfs.lookup t).isSome) = t0 :: rest →
      ∃ a0, dfs.lookup t0 = some a0 ∧
        merge_results f pt dfs = some (rest.foldl (fun acc t =>
          if (dfs.lookup t).isSome then f acc t else acc) a0)) := by
  constructor
  · intro k a h
    subst h
    simp [merge_results]
  · intro hlen t0 rest hfil
    have ht0 : (dfs.lookup t0).isSome = true := by
      have hmem : t0 ∈ pt.filter (fun t => (dfs.lookup t).isSome) := by
        rw [hfil]; exact List.mem_cons_self _ _
      exact (List.mem_filter.mp hmem).2
    obtain ⟨a0, ha0⟩ := Option.isSome_iff_exists.mp ht0
    refine ⟨a0, ha0, ?_⟩
    simp [merge_results, hlen, hfil, ha0]

/-- The C4 counterexample query: table `a` is declared first in FROM, table
`b` is brought in by the JOIN clause. -/
def c4Query : String := "SELECT * FROM a JOIN b ON a.k = b.k"

/-- Fetched frames of the C4 counterexample, one marker list per table. -/
def c4Dfs : List (String × List String) := [("a", ["dfA"]), ("b", ["dfB"])]

/-- A merge step that records which table was merged into the accumulator. -/
def c4Step (acc : List String) (t : String) : List String := acc ++ [t]

/-- C4, counterexample: the parser's table set iterates as `[b, a]` for this
query, so the merger starts from table `b`'s frame and merges `a` into it —
not the FROM declaration order `[a, b]`, which would start from `a`'s frame
and merge `b`. -/
theorem c4_merge_order_counterexample :
    (parse_sql c4Query).map ParsedQuery.tables = Except.ok ["b", "a"] ∧
    (["b", "a"] : List String) ≠ ["a", "b"] ∧
    merge_results c4Step ["b", "a"] c4Dfs = some ["dfB", "a"] ∧
    merge_results c4Step ["a", "b"] c4Dfs = some ["dfA", "b"] ∧
    (some ["dfB", "a"] : Option (List String)) ≠ some ["dfA", "b"] := by
  refine ⟨by decide, by decide, by decide, by decide, by decide⟩

/-- Witness for C4: both amended clauses applied at concrete inputs. -/
theorem c4_merge_order_witness :
    merge_results c4Step ["b", "a"] [("x", ["d"])] = some ["d"] ∧
    ∃ a0, (c4Dfs.lookup "b") = some a0 ∧
      merge_results c4Step ["b", "a"] c4Dfs = some (["a"].foldl (fun acc t =>
        if (c4Dfs.lookup t).isSome then c4Step acc t else acc) a0) :=
  ⟨(c4_merge_order_amended c4Step ["b", "a"] [("x", ["d"])]).1 "x" ["d"] rfl,
   (c4_merge_order_amended c4Step ["b", "a"] c4Dfs).2 (by decide) "b" ["a"]
     (by decide)⟩

/-! ## Claim C5 -/

/-- Filtering the mapped list agrees with a `filterMap` that keeps `g y`
exactly when `keep (g y)` holds. -/
theorem filterMap_guard_eq_filter {α : Type} (g : α → String) (keep : String → Bool)
    (xs : List α) :
    (xs.map g).filter keep =
      xs.filterMap (fun y => if keep (g y) then some (g y) else none) := by
  induction xs with
  | nil => rfl
  | cons hd tl ih =>
    cases hk : keep (g hd) with
    | true => simp [List.map_cons, List.filter_cons, List.filterMap_cons, hk, ih]
    | false => simp [List.map_cons, List.filter_cons, List.filterMap_cons, hk, ih]

/-- The filterMap over stripped tokens agrees with filtering the stripped
tokens by the attribution predicate. -/
theorem extract_filterMap_eq (a : String) (l : List String) :
    (l.filterMap (fun tok =>
      let t := stripS tok
      if t = "" then none
      else if containsS t (a ++ ".") || (!containsS t "." && containsS t "=") then
        some t
      else none)) =
    ((l.map stripS).filter (fun t =>
      t ≠ "" ∧ (containsS t (a ++ ".") = true ∨
        (containsS t "." = false ∧ containsS t "=" = true)))) := by
  have hfun : (fun tok : String =>
      let t := stripS tok
      if t = "" then none
      else if containsS t (a ++ ".") || (!containsS t "." && containsS t "=") then
        some t
      else none) =
      (fun tok : String =>
        if (fun t => decide (t ≠ "" ∧ (containsS t (a ++ ".") = true ∨
            (containsS t "." = false ∧ containsS t "=" = true)))) (stripS tok) then
          some (stripS tok)
        else none) := by
    funext tok
    by_cases h1 : stripS tok = ""
    · simp [h1]
    · by_cases hA : containsS (stripS tok) (a ++ ".") = true
      · simp [h1, hA]
      · by_cases hB : containsS (stripS tok) "." = true
        · simp [h1, hA, hB]
        · by_cases hC : containsS (stripS tok) "=" = true
          · simp [h1, hA, hB, hC]
          · simp [h1, hA, hB, hC]
  rw [hfun]
  exact (filterMap_guard_eq_filter stripS
    (fun t => decide (t ≠ "" ∧ (containsS t (a ++ ".") = true ∨
      (containsS t "." = false ∧ containsS t "=" = true)))) l).symm

/-- C5, amended: the extraction splits the raw WHERE on the literal,
case-sensitive substring `" AND "` (with no awareness of quoting, nesting or
a lower-case `and`), and attributes a stripped nonempty fragment to a table
iff the fragment contains `"<alias>."`, or it contains no `"."` AND contains
`"="` — an unqualified fragment without an equals sign is attributed to no
table. -/
theorem c5_extract_amended (w a : String) :
    extract_table_where w a = extract_table_where_spec w a := by
  unfold extract_table_where extract_table_where_spec
  by_cases hw : w = ""
  · subst hw
    rw [if_pos rfl]
    have h1 : List.map stripS (splitOnS "" " AND ") = [""] := rfl
    rw [h1]
    have h2 : List.filter (fun t => decide (t ≠ "" ∧
        (containsS t (a ++ ".") = true ∨
          containsS t "." = false ∧ containsS t "=" = true))) [""] = [] := by
      simp
    rw [h2]
    rfl
  · rw [if_neg hw]
    rw [extract_filterMap_eq a (splitOnS w " AND ")]

/-- C5, counterexample: three fragments on which the code's attribution
differs from the claim's.  The claim predicts that the unqualified fragment
`ready` is attributed to every table (the code drops it for lack of an
equals sign), that a parenthesised `AND` is not a split point (the code
splits on the literal substring regardless), and that `and` in lower case
splits (the code's split is case-sensitive, keeping `d.y = 2` inside a
fragment attributed to alias `c`). -/
theorem c5_extract_counterexample :
    extract_table_where "ready" "t" = "" ∧
    extract_table_where "t.name = (x AND y.z = 1)" "t" = "t.name = (x" ∧
    extract_table_where "c.x = 1 and d.y = 2" "c" = "c.x = 1 and d.y = 2" := by
  refine ⟨by decide, by decide, by decide⟩

/-! ## Claim C6 -/

/-- C6, amended: an error raised in the fetch, merge or post-merge-filter
stage aborts the whole query with no result frame; the single surfaced
error message is the cause wrapped with the elapsed time in the code's
actual format `"<cause> (Время выполнения: X.XX сек.)"` (not the English
`"(execution time: X.XXs)"`). -/
theorem c6_error_wrap_amended {P D M : Type} (s : QueryStages P D M) (t : Nat) :
    (∀ p e, s.parseStage = Except.ok p → s.fetchStage p = Except.error e →
      execute_query_model s t = Except.error (wrap_error_msg e t)) ∧
    (∀ p d e, s.parseStage = Except.ok p → s.fetchStage p = Except.ok d →
      s.mergeStage d = Except.error e →
      execute_query_model s t = Except.error (wrap_error_msg e t)) ∧
    (∀ p d m e, s.parseStage = Except.ok p → s.fetchStage p = Except.ok d →
      s.mergeStage d = Except.ok m → s.filterStage m = Except.error e →
      execute_query_model s t = Except.error (wrap_error_msg e t)) ∧
    (∀ e, run_pipeline s = Except.error e →
      (∀ m, execute_query_model s t ≠ Except.ok m) ∧
      containsS (wrap_error_msg e t) e = true ∧
      containsS (wrap_error_msg e t)
        (" (Время выполнения: " ++ fmtCentis t ++ " сек.)") = true) := by
  refine ⟨?_, ?_, ?_, ?_⟩
  · intro p e h1 h2
    simp [execute_query_model, run_pipeline, h1, h2, bind, Except.bind]
  · intro p d e h1 h2 h3
    simp [execute_query_model, run_pipeline, h1, h2, h3, bind, Except.bind]
  · intro p d m e h1 h2 h3 h4
    simp [execute_query_model, run_pipeline, h1, h2, h3, h4, bind, Except.bind]
  · intro e he
    refine ⟨?_, ?_, ?_⟩
    · intro m hm
      rw [execute_query_model, he] at hm
      cases hm
    · have hw : wrap_error_msg e t =
          e ++ (" (Время выполнения: " ++ fmtCentis t ++ " сек.)") := by
        simp [wrap_error_msg, String.append_assoc]
      rw [hw]
      exact containsS_append_left e _
    · have hw : wrap_error_msg e t =
          e ++ (" (Время выполнения: " ++ fmtCentis t ++ " сек.)") := by
        simp [wrap_error_msg, String.append_assoc]
      rw [hw]
      have h := containsS_append_mid e
        (" (Время выполнения: " ++ fmtCentis t ++ " сек.)") ""
      rw [String.append_empty] at h
      exact h

/-- C6, counterexample: at cause `boom` and elapsed 1.5 s, the wrapped
message is the Russian-language format of the source, not the format quoted
by the claim. -/
theorem c6_error_wrap_counterexample :
    wrap_error_msg "boom" 150 = "boom (Время выполнения: 1.50 сек.)" ∧
    containsS (wrap_error_msg "boom" 150) "(execution time:" = false ∧
    wrap_error_msg "boom" 150 ≠ "boom (execution time: 1.50s)" := by
  refine ⟨by decide, by decide, by decide⟩

/-- Concrete stages whose merge stage raises. -/
def c6Stages : QueryStages Nat Nat Nat :=
  { parseStage := Except.ok 1, fetchStage := fun _ => Except.ok 2,
    mergeStage := fun _ => Except.error "merge boom",
    filterStage := fun m => Except.ok m }

/-- Witness for C6: the merge-stage clause applied at concrete stages. -/
theorem c6_error_wrap_witness :
    execute_query_model c6Stages 150 =
      Except.error (wrap_error_msg "merge boom" 150) :=
  (c6_error_wrap_amended c6Stages 150).2.1 1 2 "merge boom" rfl rfl rfl

/-! ## Claim C7 -/

/-- The connection state after a query whose client-side group fetches two
tables on the same backend `db1` and then runs the guaranteed cleanup. -/
def c7FailState : ConnState :=
  close_connections_model
    (client_join_fetches { connections := [], nextId := 0, trace := [] } "db1"
      ["public.users", "public.orders"])

/-- C7: the claim fails on the code.  Fetching two tables of one backend
group opens two connections under the same key; the dictionary entry is
overwritten, so the cleanup closes only the second: two `connect()` calls,
one `close()` call, and connection `0` is leaked (never closed). -/
theorem c7_connection_leak :
    connectCount c7FailState.trace = 2 ∧
    closeCount c7FailState.trace = 1 ∧
    c7FailState.trace.contains (ConnEvent.connectEv "db1" 0) = true ∧
    c7FailState.trace.contains (ConnEvent.closeEv 0) = false ∧
    connectCount c7FailState.trace ≠ closeCount c7FailState.trace := by
  refine ⟨by decide, by decide, by decide, by decide, by decide⟩

/-! ## Claim C8 -/

/-- C8: parsing is deterministic.  The embedded parser is a function of the
query string alone (the Python method reads no manager state), so equal
inputs yield component-wise equal parse results. -/
theorem c8_parse_deterministic (q1 q2 : String) (h : q1 = q2)
    (p1 p2 : ParsedQuery) (h1 : parse_sql q1 = Except.ok p1)
    (h2 : parse_sql q2 = Except.ok p2) :
    p1.columns = p2.columns ∧ p1.tables = p2.tables ∧
    p1.aliases = p2.aliases ∧ p1.joins = p2.joins ∧
    p1.whereClause = p2.whereClause ∧ p1.select_all = p2.select_all := by
  subst h
  rw [h1] at h2
  injection h2 with h3
  subst h3
  exact ⟨rfl, rfl, rfl, rfl, rfl, rfl⟩

/-- The concrete query of the C8 witness (spec section 8's first example). -/
def c8Query : String := "SELECT id, name FROM public.users"

/-- Its parse result. -/
def c8Parsed : ParsedQuery :=
  { columns := ["id", "name"], tables := ["public.users"], aliases := [],
    whereClause := "", select_all := false, joins := [] }

/-- Witness for C8: determinism applied at a concrete query. -/
theorem c8_parse_witness :
    c8Parsed.columns = c8Parsed.columns ∧ c8Parsed.tables = c8Parsed.tables ∧
    c8Parsed.aliases = c8Parsed.aliases ∧ c8Parsed.joins = c8Parsed.joins ∧
    c8Parsed.whereClause = c8Parsed.whereClause ∧
    c8Parsed.select_all = c8Parsed.select_all :=
  c8_parse_deterministic c8Query c8Query rfl c8Parsed c8Parsed (by decide)
    (by decide)

/-! ## Claim C9 -/

/-- C9: when the primary expression engine raises, the prepared predicate is
re-evaluated by the manual fallback; a fragment that is none of equality,
inequality or null test leaves every row unfiltered (its per-row mask is
`true`), so dropping it from the conjunction does not change the kept
rows. -/
theorem c9_fallback_skip (engine : DataFrame → String → Option DataFrame)
    (df : DataFrame) (w : String)
    (h : engine df (prepare_where_condition w df.columns) = none) :
    apply_global_where engine df w =
      apply_where_manually df (prepare_where_condition w df.columns) ∧
    (∀ row c, containsS c "==" = false → containsS c "!=" = false →
      containsS c ".isna()" = false → containsS c ".notna()" = false →
      evalCondRow df row c = true) ∧
    (∀ (pre post : List String) c (row : List (Option String)),
      containsS c "==" = false → containsS c "!=" = false →
      containsS c ".isna()" = false → containsS c ".notna()" = false →
      (pre ++ c :: post).all (fun c2 => evalCondRow df row c2) =
        (pre ++ post).all (fun c2 => evalCondRow df row c2)) := by
  have heval : ∀ row c, containsS c "==" = false → containsS c "!=" = false →
      containsS c ".isna()" = false → containsS c ".notna()" = false →
      evalCondRow df row c = true := by
    intro row c h1 h2 h3 h4
    simp [evalCondRow, h1, h2, h3, h4]
  refine ⟨?_, heval, ?_⟩
  · simp [apply_global_where, h]
  · intro pre post c row h1 h2 h3 h4
    simp [List.all_append, List.all_cons, heval row c h1 h2 h3 h4]

/-- A one-column frame for the C9 witness. -/
def c9Df : DataFrame := { columns := ["a"], rows := [[some "1"], [some "2"]] }

/-- Witness for C9: the fallback takes over on a failing engine, and the
unparsable fragment `a > 1` filters nothing. -/
theorem c9_fallback_witness :
    apply_global_where (fun _ _ => none) c9Df "a > 1" =
      apply_where_manually c9Df (prepare_where_condition "a > 1" c9Df.columns) ∧
    evalCondRow c9Df [some "1"] "a > 1" = true :=
  ⟨(c9_fallback_skip (fun _ _ => none) c9Df "a > 1" rfl).1,
   (c9_fallback_skip (fun _ _ => none) c9Df "a > 1" rfl).2.1 [some "1"] "a > 1"
     (by decide) (by decide) (by decide) (by decide)⟩

/-! ## Claim C10 -/

/-- `setRuleAt` leaves every other index unchanged. -/
theorem setRuleAt_get_ne (l : List JoinRule) (n j : Nat) (b : Bool)
    (hne : j ≠ n) : (setRuleAt l n b).get? j = l.get? j := by
  induction l generalizing n j with
  | nil => cases n <;> rfl
  | cons r rest ih =>
    cases n with
    | zero =>
      cases j with
      | zero => exact absurd rfl hne
      | succ j2 => rfl
    | succ n2 =>
      cases j with
      | zero => rfl
      | succ j2 => exact ih n2 j2 (fun hj => hne (by rw [hj]))

/-- `setRuleAt` updates exactly the flag at the given index. -/
theorem setRuleAt_get_self (l : List JoinRule) (n : Nat) (b : Bool) (r : JoinRule)
    (hr : l.get? n = some r) :
    (setRuleAt l n b).get? n = some { r with execute_in_db := b } := by
  induction l generalizing n with
  | nil => cases n <;> cases hr
  | cons x rest ih =>
    cases n with
    | zero =>
      injection hr with hr2
      subst hr2
      rfl
    | succ n2 => exact ih n2 hr

/-- C10: a rule created by `add_join_rule` is appended with
`execute_in_db = false` and existing rules untouched; `set_join_execution`
raises on any out-of-range index, and on a valid index changes only the
addressed rule, setting exactly its flag. -/
theorem c10_rule_defaults (mkeys : List String) (cfg : List JoinRule)
    (ts : List String) (k jt : String) :
    (∀ cfg2, add_join_rule mkeys cfg ts k jt = Except.ok cfg2 →
      cfg2 = cfg ++
        [{ tables := ts, key := k, join_type := jt, execute_in_db := false }] ∧
      ∀ j, j < cfg.length → cfg2.get? j = cfg.get? j) ∧
    (∀ (i : Int) (b : Bool), ¬ (0 ≤ i ∧ i < (cfg.length : Int)) →
      set_join_execution cfg i b = Except.error "invalid join rule index") ∧
    (∀ (i : Int) (b : Bool) cfg2, set_join_execution cfg i b = Except.ok cfg2 →
      (∀ j r, j ≠ i.toNat → cfg.get? j = some r → cfg2.get? j = some r) ∧
      (∀ r, cfg.get? i.toNat = some r →
        cfg2.get? i.toNat = some { r with execute_in_db := b })) := by
  refine ⟨?_, ?_, ?_⟩
  · intro cfg2 h
    unfold add_join_rule at h
    split at h
    · cases h
    · split at h
      · cases h
      · injection h with h2
        subst h2
        exact ⟨rfl, fun j hj => List.get?_append hj⟩
  · intro i b hbad
    unfold set_join_execution
    rw [if_neg hbad]
  · intro i b cfg2 h
    unfold set_join_execution at h
    split at h
    · injection h with h2
      subst h2
      exact ⟨fun j r hj hr => (setRuleAt_get_ne cfg i.toNat j b hj).trans hr,
        fun r hr => setRuleAt_get_self cfg i.toNat b r hr⟩
    · cases h

/-- Witness for C10: the index check applied at the empty configuration and
the append applied at a two-table rule. -/
theorem c10_rule_witness :
    set_join_execution [] 0 true = Except.error "invalid join rule index" ∧
    ∀ cfg2, add_join_rule ["a", "b"] [] ["a", "b"] "k" "inner" = Except.ok cfg2 →
      cfg2 = [] ++ [{ tables := ["a", "b"], key := "k", join_type := "inner",
                      execute_in_db := false }] ∧
      ∀ j, j < ([] : List JoinRule).length → cfg2.get? j = ([] : List JoinRule).get? j :=
  ⟨(c10_rule_defaults ["a", "b"] [] ["a", "b"] "k" "inner").2.1 0 true (by decide),
   (c10_rule_defaults ["a", "b"] [] ["a", "b"] "k" "inner").1⟩

end FDW
